import Mathlib

/-!
Verification of the intelligence-extraction and cumulative-merge engine of the
guvi-honeypot repository (`app/services/intelligence.py`, `app/routes/honeypot.py`,
`app/models.py`).

The Python extractor drives everything through `re.findall`, so this file first
builds a small backtracking regular-expression engine (greedy, leftmost,
Python-compatible on the pattern constructs the source uses: character classes,
alternation, concatenation, greedy `?`/`*`/`+`/`{m,n}` repetition, one capture
group, and `\b` word boundaries).  Every pattern of `IntelligenceService.__init__`
is then transcribed into the engine's syntax, and `extract` /
`merge_intelligence` / `extract_cumulative_intel` are transcribed step by step.
All definitions are executable so that concrete end-to-end scenarios evaluate
inside the kernel.
-/

/-! ## Character classes (Python `re` classes, ASCII semantics) -/

def isDigitC (c : Char) : Bool := '0' ≤ c && c ≤ '9'

def isLowerC (c : Char) : Bool := 'a' ≤ c && c ≤ 'z'

def isUpperC (c : Char) : Bool := 'A' ≤ c && c ≤ 'Z'

def isAlphaC (c : Char) : Bool := isLowerC c || isUpperC c

def isAlnumC (c : Char) : Bool := isAlphaC c || isDigitC c

-- Python `\s` (ASCII part): space, tab, newline, carriage return, vertical tab, form feed
def isSpaceC (c : Char) : Bool :=
  c == ' ' || c == '\t' || c == '\n' || c == '\r' || c == '\x0b' || c == '\x0c'

-- Python `\w` (ASCII part), used for `\b` word boundaries
def isWordC (c : Char) : Bool := isAlnumC c || c == '_'

/-! ## String helpers mirroring the Python string operations used by the source -/

def toStr (l : List Char) : String := String.mk l

-- ASCII `str.lower()`
def lowerL (l : List Char) : List Char := l.map Char.toLower

def lowerS (s : String) : String := toStr (lowerL s.data)

-- `a.startswith(b)` on char lists
def isPrefixOfB : List Char → List Char → Bool
  | [], _ => true
  | _ :: _, [] => false
  | a :: as, b :: bs => a == b && isPrefixOfB as bs

-- Python `needle in hay` (substring containment)
def containsSub (needle : List Char) : List Char → Bool
  | [] => needle.isEmpty
  | c :: t => isPrefixOfB needle (c :: t) || containsSub needle t

-- `str.strip()` (whitespace at both ends)
def stripWs (l : List Char) : List Char :=
  ((l.dropWhile isSpaceC).reverse.dropWhile isSpaceC).reverse

-- `str.rstrip(chars)`
def rstripSet (bad : List Char) (l : List Char) : List Char :=
  (l.reverse.dropWhile (fun c => bad.contains c)).reverse

-- `s.split(sep)[0]`: everything before the first occurrence of `sep`
def upToChar (sep : Char) : List Char → List Char
  | [] => []
  | x :: xs => if x == sep then [] else x :: upToChar sep xs

-- everything after the first occurrence of `sep` (empty if absent)
def afterChar (sep : Char) : List Char → List Char
  | [] => []
  | x :: xs => if x == sep then xs else afterChar sep xs

-- `s.split(sep)[1]`: the segment between the first and second occurrence of `sep`
def secondField (sep : Char) (l : List Char) : List Char :=
  upToChar sep (afterChar sep l)

-- Python `str.isdigit()` (nonempty, all digits)
def pyIsDigit (l : List Char) : Bool := !l.isEmpty && l.all isDigitC

-- Python `l[-n:]` for lists
def lastN (n : Nat) (l : List α) : List α := l.drop (l.length - n)

/-! ## A Python-compatible backtracking regex engine

Syntax covers exactly the constructs used by `IntelligenceService.__init__`:
character classes, alternation (leftmost priority), concatenation, greedy
repetition, a single capture group, and `\b`. -/

inductive RE where
  | eps : RE
  | cls : (Char → Bool) → RE
  | alt : RE → RE → RE
  | cat : RE → RE → RE
  | star : RE → RE
  | group : RE → RE
  | wb : RE

-- literal character
def chr (c : Char) : RE := .cls (fun x => x == c)

-- case-insensitive literal character, for `(?i)` / `re.IGNORECASE` patterns
def chrI (c : Char) : RE := .cls (fun x => x.toLower == c.toLower)

def seqRE (l : List RE) : RE := l.foldr RE.cat RE.eps

-- literal string
def strRE (s : String) : RE := seqRE (s.data.map chr)

-- case-insensitive literal string
def strREI (s : String) : RE := seqRE (s.data.map chrI)

-- `a|b|c|...` with Python's left-to-right alternative priority
def altL (first : RE) (rest : List RE) : RE := rest.foldl RE.alt first

-- greedy `r?`
def optRE (r : RE) : RE := .alt r .eps

-- greedy `r+`
def plusRE (r : RE) : RE := .cat r (.star r)

-- `r` repeated exactly `n` times
def nCopies : Nat → RE → RE
  | 0, _ => .eps
  | k+1, r => .cat r (nCopies k r)

-- greedy chain of at most `k` further copies of `r` (prefers more)
def optChain : Nat → RE → RE
  | 0, _ => .eps
  | k+1, r => .alt (.cat r (optChain k r)) .eps

-- greedy `r{m,n}`
def repRange (m n : Nat) (r : RE) : RE := .cat (nCopies m r) (optChain (n - m) r)

-- greedy `r{m,}`
def repAtLeast (m : Nat) (r : RE) : RE := .cat (nCopies m r) (.star r)

def wordB : Option Char → Bool
  | some c => isWordC c
  | none => false

-- a match attempt result: the group-1 capture (if any) and the rest of the input
abbrev MRes := Option (List Char) × List Char

/--
Backtracking matcher in continuation-passing style.  `mtch fuel r cap prev s k`
tries to match `r` at the front of `s`, where `prev` is the character just
before `s` (for `\b`) and `cap` is the group-1 capture recorded so far; on each
success it calls `k` with the updated capture, the new previous character and
the remaining input, and backtracks while `k` returns `none`.  Alternation
tries the left alternative first and `star` is greedy, matching Python `re`'s
leftmost/greedy backtracking search.  A `star` iteration that consumes nothing
stops the loop (Python's empty-repetition rule).  `fuel` decreases at every
recursion step for structural termination; callers supply enough fuel that it
never runs out (each star iteration consumes at least one character here).
-/
def mtch : Nat → RE → Option (List Char) → Option Char → List Char →
    (Option (List Char) → Option Char → List Char → Option MRes) → Option MRes
  | 0, _, _, _, _, _ => none
  | fuel+1, r, cap, prev, s, k =>
    match r with
    | .eps => k cap prev s
    | .cls p =>
      match s with
      | [] => none
      | c :: rest => if p c then k cap (some c) rest else none
    | .alt a b =>
      match mtch fuel a cap prev s k with
      | some res => some res
      | none => mtch fuel b cap prev s k
    | .cat a b =>
      mtch fuel a cap prev s (fun cap' prev' s' => mtch fuel b cap' prev' s' k)
    | .star a =>
      match mtch fuel a cap prev s (fun cap' prev' s' =>
          if s'.length < s.length then mtch fuel (.star a) cap' prev' s' k
          else none) with
      | some res => some res
      | none => k cap prev s
    | .group a =>
      mtch fuel a cap prev s
        (fun _ prev' s' => k (some (s.take (s.length - s'.length))) prev' s')
    | .wb =>
      if wordB prev != wordB s.head? then k cap prev s else none

def reSize : RE → Nat
  | .eps => 1
  | .cls _ => 1
  | .alt a b => reSize a + reSize b + 1
  | .cat a b => reSize a + reSize b + 1
  | .star a => reSize a + 1
  | .group a => reSize a + 1
  | .wb => 1

-- ample fuel: every star iteration consumes a character, so the continuation
-- nesting depth is below (pattern size) * (input length + 2)
def fuelFor (r : RE) (s : List Char) : Nat := (reSize r + 2) * (s.length + 2)

/--
`re.findall` semantics: scan left to right, at each position take the first
(leftmost, backtracking-greedy) match, emit the group-1 capture when the
pattern has a group and the whole match otherwise, and continue after the
match (advancing one character past an empty match, as Python does).  Every
pattern in this development has either no group or exactly one group that
always participates in a successful match, so no tuple results arise.
-/
def findallAux : Nat → RE → Option Char → List Char → List String
  | 0, _, _, _ => []
  | fuel+1, r, prev, s =>
    match mtch (fuelFor r s) r none prev s (fun cap _ s' => some (cap, s')) with
    | some (cap, rest) =>
      let consumed := s.take (s.length - rest.length)
      let entry := toStr (cap.getD consumed)
      if 0 < consumed.length then
        entry :: findallAux fuel r consumed.getLast? rest
      else
        match s with
        | [] => [entry]
        | c :: t => entry :: findallAux fuel r (some c) t
    | none =>
      match s with
      | [] => []
      | c :: t => findallAux fuel r (some c) t

def findall (r : RE) (text : String) : List String :=
  findallAux (text.data.length + 1) r none text.data

/-! ## The patterns of `IntelligenceService.__init__`, transcribed one-to-one -/

-- `\d`
def dRE : RE := .cls isDigitC
-- `\s`
def sRE : RE := .cls isSpaceC
-- `[-/]`
def dashSlashC (c : Char) : Bool := c == '-' || c == '/'

-- `[.\s:-]` (bank patterns) and `[.:\s-]` (case/policy/order patterns): same set
def ctxSepC (c : Char) : Bool := c == '.' || isSpaceC c || c == ':' || c == '-'

-- r"(?i)(?:a/c|acct|account|acc)[.\s:-]*(?:no|number)?[.\s:-]*(\d{9,18})"
def bankPat1 : RE := seqRE [
  altL (strREI "a/c") [strREI "acct", strREI "account", strREI "acc"],
  .star (.cls ctxSepC),
  optRE (.alt (strREI "no") (strREI "number")),
  .star (.cls ctxSepC),
  .group (repRange 9 18 dRE)]

-- r"(?i)(?:account|a/c)\s*(\d{9,18})"
def bankPat2 : RE := seqRE [
  .alt (strREI "account") (strREI "a/c"),
  .star sRE,
  .group (repRange 9 18 dRE)]

-- r"\b(\d{11,16})\b"
def bankPat3 : RE := seqRE [.wb, .group (repRange 11 16 dRE), .wb]

def bankAccountPatterns : List RE := [bankPat1, bankPat2, bankPat3]

-- r"([a-zA-Z0-9._-]+@[a-zA-Z0-9]+)"  (self.upi_pattern)
def upiLocalC (c : Char) : Bool := isAlnumC c || c == '.' || c == '_' || c == '-'

def upiPat : RE := .group (seqRE [plusRE (.cls upiLocalC), chr '@', plusRE (.cls isAlnumC)])

-- r"https?://[^\s<>\"{}|\\^`\[\]]+"  (self.url_pattern); 123/125/96 are the
-- code points of the two curly braces and the backtick
def urlStopC (c : Char) : Bool :=
  isSpaceC c || c == '<' || c == '>' || c == '"' || c.toNat == 123 || c.toNat == 125 ||
  c == '|' || c == '\\' || c == '^' || c.toNat == 96 || c == '[' || c == ']'

def urlPat : RE := seqRE [strRE "http", optRE (chr 's'), strRE "://",
  plusRE (.cls (fun c => !urlStopC c))]

-- `[\s.-]?`
def phoneSep : RE := optRE (.cls (fun c => isSpaceC c || c == '.' || c == '-'))

-- r"(\+91[\s.-]?\d{5}[\s.-]?\d{5})"
def phonePat1 : RE := .group (seqRE [chr '+', strRE "91", phoneSep, nCopies 5 dRE,
  phoneSep, nCopies 5 dRE])

-- r"(\+91[\s.-]?\d{10})"
def phonePat2 : RE := .group (seqRE [chr '+', strRE "91", phoneSep, nCopies 10 dRE])

def phonePatternsWithPrefix : List RE := [phonePat1, phonePat2]

-- r"\b([6-9]\d{9})\b"
def phonePat3 : RE := seqRE [.wb,
  .group (.cat (.cls (fun c => '6' ≤ c && c ≤ '9')) (nCopies 9 dRE)), .wb]

-- r"[a-zA-Z0-9._%+-]+@[a-zA-Z0-9.-]+\.[a-zA-Z]{2,}"  (self.email_pattern)
def emailLocalC (c : Char) : Bool :=
  isAlnumC c || c == '.' || c == '_' || c == '%' || c == '+' || c == '-'

def emailDomC (c : Char) : Bool := isAlnumC c || c == '.' || c == '-'

def emailPat : RE := seqRE [plusRE (.cls emailLocalC), chr '@', plusRE (.cls emailDomC),
  chr '.', repAtLeast 2 (.cls isAlphaC)]

-- the keyword-then-identifier patterns share the shapes below
-- `\s*`, `(?:is\s*)?`, `[.:\s-]*`
def wsStar : RE := .star sRE

def isOpt : RE := optRE (.cat (strREI "is") wsStar)

-- r"(?i)...([A-Z]{0,5}[-/]?\d{m,n})" — under `(?i)` the class `[A-Z]` matches
-- letters of either case
def idTail (m n : Nat) : RE := .group (seqRE [repRange 0 5 (.cls isAlphaC),
  optRE (.cls dashSlashC), repRange m n dRE])

-- r"(?i)(?:case|ref|reference|complaint|ticket|incident|fir)\s*(?:no|number|id|#)?[.:\s-]*(?:is\s*)?([A-Z]{0,5}[-/]?\d{3,12})"
def caseIdPat1 : RE := seqRE [
  altL (strREI "case") [strREI "ref", strREI "reference", strREI "complaint",
    strREI "ticket", strREI "incident", strREI "fir"],
  wsStar,
  optRE (altL (strREI "no") [strREI "number", strREI "id", chr '#']),
  .star (.cls ctxSepC),
  isOpt,
  idTail 3 12]

-- r"\b([A-Z]{2,5}[-/]\d{4,12})\b"
def caseIdPat2 : RE := seqRE [.wb,
  .group (seqRE [repRange 2 5 (.cls isUpperC), .cls dashSlashC, repRange 4 12 dRE]), .wb]

def caseIdPatterns : List RE := [caseIdPat1, caseIdPat2]

-- r"(?i)(?:policy|pol)\s*(?:no|number|#)?[.:\s-]*(?:is\s*)?([A-Z]{0,5}[-/]?\d{4,15})"
def policyPat : RE := seqRE [
  .alt (strREI "policy") (strREI "pol"),
  wsStar,
  optRE (altL (strREI "no") [strREI "number", chr '#']),
  .star (.cls ctxSepC),
  isOpt,
  idTail 4 15]

def policyNumberPatterns : List RE := [policyPat]

-- r"(?i)(?:order|ord|transaction|txn)\s*(?:no|number|id|#)?[.:\s-]*(?:is\s*)?([A-Z]{0,5}[-/]?\d{3,15})"
def orderPat1 : RE := seqRE [
  altL (strREI "order") [strREI "ord", strREI "transaction", strREI "txn"],
  wsStar,
  optRE (altL (strREI "no") [strREI "number", strREI "id", chr '#']),
  .star (.cls ctxSepC),
  isOpt,
  idTail 3 15]

-- r"\b(ORD[-/]\d{4,12})\b"
def orderPat2 : RE := seqRE [.wb,
  .group (seqRE [strRE "ORD", .cls dashSlashC, repRange 4 12 dRE]), .wb]

-- r"\b(TXN[-/]\d{4,12})\b"
def orderPat3 : RE := seqRE [.wb,
  .group (seqRE [strRE "TXN", .cls dashSlashC, repRange 4 12 dRE]), .wb]

def orderNumberPatterns : List RE := [orderPat1, orderPat2, orderPat3]

-- self.email_domains
def emailDomains : List String := ["gmail", "yahoo", "hotmail", "outlook", "rediffmail",
  "protonmail", "icloud", "mail", "email", "live", "msn", "aol", "zoho", "yandex"]

-- self.upi_handles
def upiHandles : List String := ["upi", "paytm", "okhdfcbank", "okicici", "oksbi", "ybl",
  "apl", "axl", "ibl", "sbi", "hdfc", "icici", "axis",
  "kotak", "indus", "federal", "gpay", "phonepe", "amazonpay",
  "freecharge", "airtel", "jio", "mobikwik", "slice", "cred",
  "idfcfirst", "rbl", "dbs", "yes", "bob", "pnb", "canara",
  "fakebank", "fakeupi"]

-- self.suspicious_keywords
def suspiciousKeywordList : List String := [
  "blocked", "suspend", "expired", "urgent", "immediate", "today",
  "verify", "kyc", "update", "confirm", "validate",
  "otp", "pin", "password", "cvv", "card number",
  "refund", "prize", "lottery", "winner", "cashback", "reward",
  "legal action", "police", "arrest", "court", "fir",
  "download", "apk", "install", "click here", "link",
  "pan card", "aadhar", "aadhaar", "bank account", "transfer"]

/-! ## Data model (`app/models.py`, class `ExtractedIntelligence`) -/

structure ExtractedIntelligence where
  bankAccounts : List String := []
  upiIds : List String := []
  phishingLinks : List String := []
  phoneNumbers : List String := []
  emailAddresses : List String := []
  caseIds : List String := []
  policyNumbers : List String := []
  orderNumbers : List String := []
  suspiciousKeywords : List String := []
  deriving Repr, DecidableEq

def emptyIntel : ExtractedIntelligence := {}

/-! ## `IntelligenceService.extract`, transcribed section by section -/

-- bank-account loop body (tuple flattening elided: no pattern here has more
-- than one capture group, so `re.findall` never yields tuples)
def bankStep (acc : List String) (m : String) : List String :=
  if pyIsDigit m.data && 9 ≤ m.data.length && m.data.length ≤ 18 then
    if m.data.length == 10 && (("6789".data).contains (m.data.headD ' ')) then acc
    else if m.data.length == 10 &&
        (isPrefixOfB "16".data m.data || isPrefixOfB "17".data m.data ||
         isPrefixOfB "18".data m.data) then acc
    else if acc.contains m then acc else acc ++ [m]
  else acc

def extractBankAccounts (text : String) : List String :=
  ((bankAccountPatterns.map (fun p => findall p text)).flatten).foldl bankStep []

-- `email_clean.split('@')[1].split('.')[0].split('-')[0]`
def emailHandleTrunc (emailClean : List Char) : List Char :=
  upToChar '-' (upToChar '.' (secondField '@' emailClean))

-- `email_clean = email.strip().lower()`
def emailCleanOf (email : String) : List Char := lowerL (stripWs email.data)

-- `domain = email_clean.split('@')[1] if '@' in email_clean else ''`
def emailDomainOf (ec : List Char) : List Char :=
  if ec.contains '@' then secondField '@' ec else []

-- `email_clean.split('@')[0] + '@' + handle_prefix`, the spurious-UPI prefix
-- recorded for a detected email
def emailPrefixKey (email : String) : String :=
  toStr (upToChar '@' (emailCleanOf email) ++ '@' :: emailHandleTrunc (emailCleanOf email))

-- email loop body; the state is (intel.emailAddresses, email_prefixes)
def emailStep (st : List String × List String) (email : String) : List String × List String :=
  if (emailDomainOf (emailCleanOf email)).contains '.' &&
      !((st.1.map lowerS).contains (toStr (emailCleanOf email))) then
    (st.1 ++ [email], st.2 ++ [emailPrefixKey email])
  else st

def extractEmailState (text : String) : List String × List String :=
  (findall emailPat text).foldl emailStep ([], [])

-- UPI loop body, given the already-extracted emails and email prefixes
-- `handle = match.split("@")[1].lower()`
def upiHandleOf (m : String) : List Char := lowerL (secondField '@' m.data)

def upiStep (emails : List String) (prefixes : List String)
    (acc : List String) (m : String) : List String :=
  if m.data.contains '@' then
    if emailDomains.contains (toStr (upiHandleOf m)) then acc
    else if (upiHandleOf m).contains '.' then acc
    else if prefixes.contains (lowerS m) then acc
    else if emails.any (fun e =>
        isPrefixOfB (lowerL m.data) (lowerL e.data) && m.data.length < e.data.length) then acc
    else if upiHandles.contains (toStr (upiHandleOf m)) || (upiHandleOf m).length ≤ 10 then
      if (acc.map lowerS).contains (lowerS m) then acc else acc ++ [m]
    else acc
  else acc

def extractUpiIds (text : String) (emails : List String) (prefixes : List String) :
    List String :=
  (findall upiPat text).foldl (upiStep emails prefixes) []

-- `url = url.rstrip(".,;:!?)")`
def cleanUrl (u : String) : String :=
  toStr (rstripSet [ '.', ',', ';', ':', '!', '?', ')' ] u.data)

-- URL loop body: keep a cleaned, nonempty, unseen URL
def urlStep (acc : List String) (u : String) : List String :=
  if cleanUrl u != "" && !acc.contains (cleanUrl u) then acc ++ [cleanUrl u] else acc

def extractPhishingLinks (text : String) : List String :=
  (findall urlPat text).foldl urlStep []

def phonePre : List Char := ['+', '9', '1', '-']

-- `digits_only = re.sub(r'[^\d]', '', original)`
def phoneDigitsOf (m : String) : List Char := m.data.filter isDigitC

-- `core_digits`: strip a leading country code, else take the last ten digits
def phoneCoreOfMatch (m : String) : List Char :=
  if isPrefixOfB "91".data (phoneDigitsOf m) && 12 ≤ (phoneDigitsOf m).length then
    (phoneDigitsOf m).drop 2
  else lastN 10 (phoneDigitsOf m)

-- prefix-pattern loop body; state is (seen_phone_digits, intel.phoneNumbers)
def phonePrefixStep (st : List String × List String) (m : String) :
    List String × List String :=
  if (phoneCoreOfMatch m).length == 10 && !st.1.contains (toStr (phoneCoreOfMatch m)) then
    (st.1 ++ [toStr (phoneCoreOfMatch m)], st.2 ++ [toStr (phonePre ++ phoneCoreOfMatch m)])
  else st

-- standalone-pattern loop body
def phoneStandaloneStep (st : List String × List String) (m : String) :
    List String × List String :=
  if (stripWs m.data).length == 10 && pyIsDigit (stripWs m.data) &&
      !st.1.contains (toStr (stripWs m.data)) then
    (st.1 ++ [toStr (stripWs m.data)], st.2 ++ [toStr (phonePre ++ stripWs m.data)])
  else st

def extractPhoneNumbers (text : String) : List String :=
  let st1 := ((phonePatternsWithPrefix.map (fun p => findall p text)).flatten).foldl
    phonePrefixStep ([], [])
  ((findall phonePat3 text).foldl phoneStandaloneStep st1).2

-- shared loop body of the case-id / policy-number / order-number sections
-- `match_clean = match.strip()`
def cleanRef (m : String) : String := toStr (stripWs m.data)

def refIdStep (acc : List String) (m : String) : List String :=
  if 3 ≤ (cleanRef m).data.length && !acc.contains (cleanRef m) then
    acc ++ [cleanRef m]
  else acc

def extractRefIds (patterns : List RE) (text : String) : List String :=
  ((patterns.map (fun p => findall p text)).flatten).foldl refIdStep []

-- keyword loop body over the lowercased text
def keywordStep (textLower : String) (acc : List String) (kw : String) : List String :=
  if containsSub kw.data textLower.data then
    if acc.contains kw then acc else acc ++ [kw]
  else acc

def extractKeywords (textLower : String) : List String :=
  suspiciousKeywordList.foldl (keywordStep textLower) []

/-- `IntelligenceService.extract(text)`: the empty-input early return followed by
the per-entity extraction sections in source order (emails are extracted before
UPI ids so that email prefixes can suppress spurious UPI matches). -/
def extract (text : String) : ExtractedIntelligence :=
  if text == "" then emptyIntel
  else
    let textLower := lowerS text
    let emailSt := extractEmailState text
    { bankAccounts := extractBankAccounts text
      emailAddresses := emailSt.1
      upiIds := extractUpiIds text emailSt.1 emailSt.2
      phishingLinks := extractPhishingLinks text
      phoneNumbers := extractPhoneNumbers text
      caseIds := extractRefIds caseIdPatterns text
      policyNumbers := extractRefIds policyNumberPatterns text
      orderNumbers := extractRefIds orderNumberPatterns text
      suspiciousKeywords := extractKeywords textLower }

/-- `extract(text)` as called with a possibly-null argument: `if not text:`
returns the empty result for Python `None` exactly as for `""`. -/
def extractOpt : Option String → ExtractedIntelligence
  | none => emptyIntel
  | some t => extract t

/-! ## `IntelligenceService.merge_intelligence` -/

-- `merge_unique(list1, list2)`: `seen` is the set of lowercased items already
-- emitted, `result` the output list under construction
def mergeUniqueAux : List String → List String → List String → List String
  | _, result, [] => result
  | seen, result, item :: rest =>
    let il := lowerS item
    if seen.contains il then mergeUniqueAux seen result rest
    else mergeUniqueAux (seen ++ [il]) (result ++ [item]) rest

def mergeUnique (l1 l2 : List String) : List String := mergeUniqueAux [] [] (l1 ++ l2)

/-- The value returned by `merge_intelligence(current, new_intel)`: each field is
`merge_unique` of the two inputs' fields. -/
def mergeIntelligence (current newIntel : ExtractedIntelligence) : ExtractedIntelligence :=
  { bankAccounts := mergeUnique current.bankAccounts newIntel.bankAccounts
    upiIds := mergeUnique current.upiIds newIntel.upiIds
    phishingLinks := mergeUnique current.phishingLinks newIntel.phishingLinks
    phoneNumbers := mergeUnique current.phoneNumbers newIntel.phoneNumbers
    emailAddresses := mergeUnique current.emailAddresses newIntel.emailAddresses
    caseIds := mergeUnique current.caseIds newIntel.caseIds
    policyNumbers := mergeUnique current.policyNumbers newIntel.policyNumbers
    orderNumbers := mergeUnique current.orderNumbers newIntel.orderNumbers
    suspiciousKeywords := mergeUnique current.suspiciousKeywords newIntel.suspiciousKeywords }

/-- Post-state of the first argument `current` after `merge_intelligence` returns:
the source assigns `current.f = merge_unique(current.f, new_intel.f)` for every
field `f` and then returns `current` itself, so after the call the first
argument's fields are exactly the fields of the returned object. -/
def mergeCurrentPost (current newIntel : ExtractedIntelligence) : ExtractedIntelligence :=
  mergeIntelligence current newIntel

/-- Post-state of the second argument `new_intel` after `merge_intelligence`
returns: the source only reads `new_intel`'s fields (no statement assigns to
`new_intel`, and `merge_unique` builds a fresh list), so it is unchanged. -/
def mergeNewIntelPost (_current newIntel : ExtractedIntelligence) : ExtractedIntelligence :=
  newIntel

/-! ## `extract_cumulative_intel` (`app/routes/honeypot.py`) -/

/-- `extract_cumulative_intel(current_message, history, intel_service)`: start
from a fresh empty aggregate, fold each history message's extraction into it
(oldest first), then fold in the current message's extraction.  Only the `text`
of each history `Message` is used, so history is modelled as its list of texts. -/
def extractCumulativeIntel (currentMessage : String) (history : List String) :
    ExtractedIntelligence :=
  let cumulative := history.foldl (fun acc msg => mergeIntelligence acc (extract msg))
    emptyIntel
  mergeIntelligence cumulative (extract currentMessage)

/-! ## Predicates and scenario constants used by the statements below -/

-- case-insensitive duplicate-freedom of a field
def ciDeduped (l : List String) : Prop := (l.map lowerS).Nodup

instance (l : List String) : Decidable (ciDeduped l) :=
  inferInstanceAs (Decidable ((l.map lowerS).Nodup))

-- every entry appended by the phone folds is "+91-" followed by a 10-digit core
def isPhoneCanon (p : String) : Prop :=
  ∃ core, core.length = 10 ∧ (∀ c ∈ core, isDigitC c = true) ∧ p = toStr (phonePre ++ core)

-- fold invariant: canonical shape, pairwise-distinct cores, cores tracked in seen
def phoneInv (st : List String × List String) : Prop :=
  (∀ p ∈ st.2, isPhoneCanon p) ∧
  (st.2.map (fun p => p.data.drop 4)).Nodup ∧
  (∀ p ∈ st.2, toStr (p.data.drop 4) ∈ st.1)

-- the two `continue` filters of the bank-account loop, as a predicate
def bankOk (x : String) : Prop :=
  x.data.length = 10 →
    ("6789".data.contains (x.data.headD ' ') = false ∧
     isPrefixOfB "16".data x.data = false ∧
     isPrefixOfB "17".data x.data = false ∧
     isPrefixOfB "18".data x.data = false)

-- the two email-suppression guards of the UPI loop, as a predicate on entries
def upiOk (emails prefixes : List String) (m : String) : Prop :=
  prefixes.contains (lowerS m) = false ∧
  emails.any (fun e => isPrefixOfB (lowerL m.data) (lowerL e.data) &&
    m.data.length < e.data.length) = false

-- the spec's three-turn end-to-end evaluation scenario
def scenarioAgg : ExtractedIntelligence :=
  extractCumulativeIntel "Click http://fake-site.com/claim?id=1"
    ["Your SBI account is blocked, call +91-9876543210",
     "Account number 1234567890123456, pay to scammer.fraud@fakebank"]

-- the spec's email/handle disambiguation input
def disambigText : String := "email us at offers@fake-amazon-deals.com for help"

/-! ## Helper lemmas: list membership and `merge_unique` algebra -/

lemma containsFalse {α} [BEq α] [LawfulBEq α] {l : List α} {a : α}
    (h : l.contains a = false) : a ∉ l := by
  intro hm
  have ht : l.contains a = true := List.elem_iff.mpr hm
  rw [h] at ht
  exact Bool.false_ne_true ht

lemma strMk_inj {a b : List Char} (h : toStr a = toStr b) : a = b := by
  unfold toStr at h
  injection h

-- characterization of the lowercased entries of `merge_unique`
lemma mergeUniqueAux_mem_lower (rest : List String) :
    ∀ result seen, seen = result.map lowerS →
      ∀ z, z ∈ (mergeUniqueAux seen result rest).map lowerS ↔
        z ∈ result.map lowerS ∨ z ∈ rest.map lowerS := by
  induction rest with
  | nil => intro result seen _ z; simp [mergeUniqueAux]
  | cons item rest ih =>
    intro result seen hseen z
    rw [mergeUniqueAux]
    split
    · next hc =>
      rw [ih result seen hseen z]
      have hmem : lowerS item ∈ result.map lowerS := by
        rw [← hseen]; exact List.elem_iff.mp hc
      simp only [List.map_cons, List.mem_cons]
      constructor
      · rintro (h | h)
        · exact Or.inl h
        · exact Or.inr (Or.inr h)
      · rintro (h | h | h)
        · exact Or.inl h
        · exact Or.inl (h ▸ hmem)
        · exact Or.inr h
    · next hc =>
      have hseen' : seen ++ [lowerS item] = (result ++ [item]).map lowerS := by
        simp [hseen]
      rw [ih (result ++ [item]) (seen ++ [lowerS item]) hseen' z]
      simp only [List.map_append, List.map_cons, List.map_nil, List.mem_append,
        List.mem_cons, List.mem_singleton, List.not_mem_nil, or_false]
      tauto

lemma mergeUnique_mem_lower (l1 l2 : List String) (z : String) :
    z ∈ (mergeUnique l1 l2).map lowerS ↔ z ∈ l1.map lowerS ∨ z ∈ l2.map lowerS := by
  unfold mergeUnique
  rw [mergeUniqueAux_mem_lower (l1 ++ l2) [] [] rfl z]
  simp

-- the output of `merge_unique` never holds two case-insensitively equal entries
lemma mergeUniqueAux_nodup_lower (rest : List String) :
    ∀ result seen, seen = result.map lowerS → (result.map lowerS).Nodup →
      ((mergeUniqueAux seen result rest).map lowerS).Nodup := by
  induction rest with
  | nil => intro result seen _ hnd; simpa [mergeUniqueAux] using hnd
  | cons item rest ih =>
    intro result seen hseen hnd
    rw [mergeUniqueAux]
    split
    · exact ih result seen hseen hnd
    · next hc =>
      have hnotin : lowerS item ∉ result.map lowerS := by
        rw [← hseen]; exact containsFalse (by simpa using hc)
      have hseen' : seen ++ [lowerS item] = (result ++ [item]).map lowerS := by
        simp [hseen]
      refine ih (result ++ [item]) (seen ++ [lowerS item]) hseen' ?_
      simp [List.nodup_append, hnd, hnotin]

lemma mergeUnique_nodup_lower (l1 l2 : List String) :
    ((mergeUnique l1 l2).map lowerS).Nodup := by
  unfold mergeUnique
  exact mergeUniqueAux_nodup_lower (l1 ++ l2) [] [] rfl List.nodup_nil

-- items whose lowercase form was already seen are dropped
lemma mergeUniqueAux_absorb (rest : List String) :
    ∀ seen result, (∀ x ∈ rest, lowerS x ∈ seen) →
      mergeUniqueAux seen result rest = result := by
  induction rest with
  | nil => intro seen result _; rfl
  | cons item rest ih =>
    intro seen result h
    rw [mergeUniqueAux]
    have : seen.contains (lowerS item) = true := List.elem_iff.mpr (h item (by simp))
    rw [if_pos this]
    exact ih seen result (fun x hx => h x (by simp [hx]))

-- a block of pairwise-fresh items passes through unchanged
lemma mergeUniqueAux_fresh (rest : List String) :
    ∀ seen result tail, (rest.map lowerS).Nodup → (∀ x ∈ rest, lowerS x ∉ seen) →
      mergeUniqueAux seen result (rest ++ tail) =
        mergeUniqueAux (seen ++ rest.map lowerS) (result ++ rest) tail := by
  induction rest with
  | nil => intro seen result tail _ _; simp
  | cons item rest ih =>
    intro seen result tail hnd hfresh
    rw [List.map_cons] at hnd
    have hhead : lowerS item ∉ rest.map lowerS := (List.nodup_cons.mp hnd).1
    have htail : (rest.map lowerS).Nodup := (List.nodup_cons.mp hnd).2
    rw [List.cons_append, mergeUniqueAux]
    have hnotin : lowerS item ∉ seen := hfresh item (by simp)
    rw [if_neg (by intro hc; exact hnotin (List.elem_iff.mp hc))]
    rw [ih (seen ++ [lowerS item]) (result ++ [item]) tail htail ?_]
    · simp
    · intro x hx
      simp only [List.mem_append, List.mem_singleton]
      rintro (h | h)
      · exact hfresh x (by simp [hx]) h
      · exact hhead (h ▸ List.mem_map_of_mem lowerS hx)

lemma mergeUnique_self (l : List String) (h : (l.map lowerS).Nodup) :
    mergeUnique l l = l := by
  unfold mergeUnique
  rw [mergeUniqueAux_fresh l [] [] l h (by simp)]
  simp only [List.nil_append]
  exact mergeUniqueAux_absorb l (l.map lowerS) l
    (fun x hx => List.mem_map_of_mem lowerS hx)

lemma mergeUnique_absorb_right (l1 l2 : List String) :
    mergeUnique (mergeUnique l1 l2) l2 = mergeUnique l1 l2 := by
  conv_lhs => rw [mergeUnique]
  rw [mergeUniqueAux_fresh (mergeUnique l1 l2) [] [] l2 (mergeUnique_nodup_lower l1 l2)
    (by simp)]
  simp only [List.nil_append]
  refine mergeUniqueAux_absorb l2 _ _ (fun x hx => ?_)
  exact (mergeUnique_mem_lower l1 l2 (lowerS x)).mpr (Or.inr (List.mem_map_of_mem lowerS hx))

-- merging genuinely new content changes the first list
lemma mergeUnique_ne (l1 l2 : List String) (x : String) (hx : x ∈ l2)
    (hn : lowerS x ∉ l1.map lowerS) : mergeUnique l1 l2 ≠ l1 := by
  intro he
  have hmem : lowerS x ∈ (mergeUnique l1 l2).map lowerS :=
    (mergeUnique_mem_lower l1 l2 (lowerS x)).mpr (Or.inr (List.mem_map_of_mem lowerS hx))
  rw [he] at hmem
  exact hn hmem

/-! ## Helper lemmas: generic facts about the extraction folds -/

-- a step-indexed invariant carries through `List.foldl`
lemma foldl_preserve {σ α : Type} {P : σ → Prop} (step : σ → α → σ)
    (hstep : ∀ acc m, P acc → P (step acc m)) :
    ∀ (ms : List α) (acc : σ), P acc → P (ms.foldl step acc) := by
  intro ms
  induction ms with
  | nil => intro acc h; exact h
  | cons m ms ih => intro acc h; exact ih (step acc m) (hstep acc m h)

-- folds whose steps only ever append a key-fresh element keep keys duplicate-free
lemma foldl_nodup_key {κ : Type} [DecidableEq κ] (key : String → κ)
    (step : List String → String → List String)
    (hstep : ∀ acc m, step acc m = acc ∨
      ∃ x, step acc m = acc ++ [x] ∧ key x ∉ acc.map key) :
    ∀ (ms : List String) (acc : List String),
      (acc.map key).Nodup → ((ms.foldl step acc).map key).Nodup := by
  intro ms
  induction ms with
  | nil => intro acc h; exact h
  | cons m ms ih =>
    intro acc h
    rcases hstep acc m with heq | ⟨x, heq, hfresh⟩
    · rw [List.foldl_cons, heq]; exact ih acc h
    · rw [List.foldl_cons, heq]
      refine ih (acc ++ [x]) ?_
      simp [List.nodup_append, h, hfresh]

/-! ## Helper lemmas: the boolean substring checks against Mathlib's relations -/

lemma isPrefixOfB_iff (a : List Char) : ∀ b, isPrefixOfB a b = true ↔ a <+: b := by
  induction a with
  | nil => intro b; simp [isPrefixOfB]
  | cons x xs ih =>
    intro b
    cases b with
    | nil => simp [isPrefixOfB]
    | cons y ys =>
      rw [show isPrefixOfB (x :: xs) (y :: ys) = (x == y && isPrefixOfB xs ys) from rfl,
        Bool.and_eq_true, beq_iff_eq, ih ys, List.cons_prefix_cons]

lemma containsSub_iff (n : List Char) : ∀ h, containsSub n h = true ↔ n <:+: h := by
  intro h
  induction h with
  | nil =>
    rw [show containsSub n [] = n.isEmpty from rfl]
    simp [List.isEmpty_iff]
  | cons c t ih =>
    rw [containsSub, Bool.or_eq_true, isPrefixOfB_iff, ih, List.infix_cons_iff]

/-! ## Helper lemmas: the suspicious-keyword fold -/

lemma keywordStep_mono (tl : String) (acc : List String) (k x : String)
    (h : x ∈ acc) : x ∈ keywordStep tl acc k := by
  unfold keywordStep
  split
  · split
    · exact h
    · exact List.mem_append_left _ h
  · exact h

lemma keywordFold_mem (tl : String) (kw : String) (vocab : List String) :
    ∀ acc, (kw ∈ acc ∨ (kw ∈ vocab ∧ containsSub kw.data tl.data = true)) →
      kw ∈ vocab.foldl (keywordStep tl) acc := by
  induction vocab with
  | nil =>
    intro acc h
    rcases h with h | ⟨h, _⟩
    · exact h
    · exact absurd h (List.not_mem_nil kw)
  | cons v vs ih =>
    intro acc h
    rw [List.foldl_cons]
    refine ih (keywordStep tl acc v) ?_
    rcases h with h | ⟨hv, hsub⟩
    · exact Or.inl (keywordStep_mono tl acc v kw h)
    · rcases List.mem_cons.mp hv with he | hvs
      · subst he
        refine Or.inl ?_
        unfold keywordStep
        rw [if_pos hsub]
        split
        · next hc => exact List.elem_iff.mp hc
        · exact List.mem_append_right _ (by simp)
      · exact Or.inr ⟨hvs, hsub⟩

/-! ## Helper lemmas: shapes of the per-entity fold steps (for de-duplication) -/

lemma bankStep_shape (acc : List String) (m : String) :
    bankStep acc m = acc ∨ ∃ x, bankStep acc m = acc ++ [x] ∧ x ∉ acc := by
  unfold bankStep
  split
  · split
    · exact Or.inl rfl
    · split
      · exact Or.inl rfl
      · split
        · exact Or.inl rfl
        · next hc => exact Or.inr ⟨m, rfl, containsFalse (by simpa using hc)⟩
  · exact Or.inl rfl

lemma urlStep_shape (acc : List String) (m : String) :
    urlStep acc m = acc ∨ ∃ x, urlStep acc m = acc ++ [x] ∧ x ∉ acc := by
  unfold urlStep
  split
  · next hc =>
    rw [Bool.and_eq_true] at hc
    exact Or.inr ⟨_, rfl, containsFalse (by simpa using hc.2)⟩
  · exact Or.inl rfl

lemma refIdStep_shape (acc : List String) (m : String) :
    refIdStep acc m = acc ∨ ∃ x, refIdStep acc m = acc ++ [x] ∧ x ∉ acc := by
  unfold refIdStep
  split
  · next hc =>
    rw [Bool.and_eq_true] at hc
    exact Or.inr ⟨_, rfl, containsFalse (by simpa using hc.2)⟩
  · exact Or.inl rfl

lemma keywordStep_shape (tl : String) (acc : List String) (m : String) :
    keywordStep tl acc m = acc ∨ ∃ x, keywordStep tl acc m = acc ++ [x] ∧ x ∉ acc := by
  unfold keywordStep
  split
  · split
    · exact Or.inl rfl
    · next hc => exact Or.inr ⟨m, rfl, containsFalse (by simpa using hc)⟩
  · exact Or.inl rfl

lemma upiStep_shape (emails prefixes : List String) (acc : List String) (m : String) :
    upiStep emails prefixes acc m = acc ∨
      ∃ x, upiStep emails prefixes acc m = acc ++ [x] ∧ lowerS x ∉ acc.map lowerS := by
  unfold upiStep
  split
  · split
    · exact Or.inl rfl
    · split
      · exact Or.inl rfl
      · split
        · exact Or.inl rfl
        · split
          · exact Or.inl rfl
          · split
            · split
              · exact Or.inl rfl
              · next hc => exact Or.inr ⟨m, rfl, containsFalse (by simpa using hc)⟩
            · exact Or.inl rfl
  · exact Or.inl rfl

/-! ## Helper lemmas: phone-number canonical form -/



lemma canon_data_drop (core : List Char) : (toStr (phonePre ++ core)).data.drop 4 = core := by
  show (phonePre ++ core).drop 4 = core
  have h4 : phonePre.length = 4 := rfl
  rw [← h4, List.drop_left]

lemma phoneInv_append (st : List String × List String) (core : List Char)
    (h : phoneInv st) (hlen : core.length = 10) (hdig : ∀ c ∈ core, isDigitC c = true)
    (hfresh : st.1.contains (toStr core) = false) :
    phoneInv (st.1 ++ [toStr core], st.2 ++ [toStr (phonePre ++ core)]) := by
  obtain ⟨hshape, hnd, hseen⟩ := h
  refine ⟨?_, ?_, ?_⟩
  · intro p hp
    rcases List.mem_append.mp hp with hp | hp
    · exact hshape p hp
    · rw [List.mem_singleton.mp hp]
      exact ⟨core, hlen, hdig, rfl⟩
  · rw [List.map_append]
    simp only [List.map_cons, List.map_nil, canon_data_drop]
    rw [List.nodup_append]
    refine ⟨hnd, List.nodup_singleton core, ?_⟩
    intro d hd
    simp only [List.mem_singleton]
    intro hcontra
    rcases List.mem_map.mp hd with ⟨p, hp, hdp⟩
    have : toStr (p.data.drop 4) ∈ st.1 := hseen p hp
    rw [hdp, hcontra] at this
    exact containsFalse hfresh this
  · intro p hp
    rcases List.mem_append.mp hp with hp | hp
    · exact List.mem_append_left _ (hseen p hp)
    · rw [List.mem_singleton.mp hp, canon_data_drop]
      exact List.mem_append_right _ (by simp)

lemma phoneCoreOfMatch_digits (m : String) : ∀ c ∈ phoneCoreOfMatch m, isDigitC c = true := by
  intro c hc
  unfold phoneCoreOfMatch at hc
  split at hc
  · exact (List.mem_filter.mp (List.mem_of_mem_drop hc)).2
  · exact (List.mem_filter.mp (List.mem_of_mem_drop hc)).2

lemma phonePrefixStep_inv (st : List String × List String) (m : String)
    (h : phoneInv st) : phoneInv (phonePrefixStep st m) := by
  unfold phonePrefixStep
  split
  · next hcond =>
    rw [Bool.and_eq_true] at hcond
    exact phoneInv_append st (phoneCoreOfMatch m) h (by simpa using hcond.1)
      (phoneCoreOfMatch_digits m) (by simpa using hcond.2)
  · exact h

lemma phoneStandaloneStep_inv (st : List String × List String) (m : String)
    (h : phoneInv st) : phoneInv (phoneStandaloneStep st m) := by
  unfold phoneStandaloneStep
  split
  · next hcond =>
    rw [Bool.and_eq_true, Bool.and_eq_true] at hcond
    refine phoneInv_append st (stripWs m.data) h (by simpa using hcond.1.1) ?_
      (by simpa using hcond.2)
    have := hcond.1.2
    unfold pyIsDigit at this
    rw [Bool.and_eq_true] at this
    exact fun c hc => List.all_eq_true.mp this.2 c hc
  · exact h

lemma extractPhoneNumbers_inv (text : String) :
    (∀ p ∈ extractPhoneNumbers text, isPhoneCanon p) ∧
    ((extractPhoneNumbers text).map (fun p => p.data.drop 4)).Nodup := by
  unfold extractPhoneNumbers
  have base : phoneInv ([], []) := ⟨by simp, by simp, by simp⟩
  have h1 := foldl_preserve phonePrefixStep phonePrefixStep_inv
    ((phonePatternsWithPrefix.map (fun p => findall p text)).flatten) ([], []) base
  have h2 := foldl_preserve phoneStandaloneStep phoneStandaloneStep_inv
    (findall phonePat3 text) _ h1
  exact ⟨h2.1, h2.2.1⟩

lemma bool_ne_true {b : Bool} (h : ¬ b = true) : b = false := by
  cases b
  · rfl
  · exact absurd rfl h

/-! ## Helper lemmas: the bank-account filters -/



lemma bankStep_ok (acc : List String) (m : String)
    (h : ∀ y ∈ acc, bankOk y) : ∀ y ∈ bankStep acc m, bankOk y := by
  unfold bankStep
  split
  · split
    · exact h
    · next hc1 =>
      split
      · exact h
      · next hc2 =>
        split
        · exact h
        · intro y hy
          rcases List.mem_append.mp hy with hy | hy
          · exact h y hy
          · rw [List.mem_singleton.mp hy]
            intro hlen
            have hbeq : (m.data.length == 10) = true := by
              rw [hlen]
              rfl
            have h1 : "6789".data.contains (m.data.headD ' ') = false := by
              have := bool_ne_true hc1
              rwa [hbeq, Bool.true_and] at this
            have h2 := bool_ne_true hc2
            rw [hbeq, Bool.true_and, Bool.or_eq_false_iff, Bool.or_eq_false_iff] at h2
            exact ⟨h1, h2.1.1, h2.1.2, h2.2⟩
  · exact h

lemma extractBankAccounts_ok (text : String) :
    ∀ y ∈ extractBankAccounts text, bankOk y := by
  unfold extractBankAccounts
  exact foldl_preserve bankStep bankStep_ok _ [] (by simp)

/-! ## Helper lemmas: the UPI exclusion guards -/



lemma upiStep_ok (emails prefixes : List String) (acc : List String) (m : String)
    (h : ∀ y ∈ acc, upiOk emails prefixes y) :
    ∀ y ∈ upiStep emails prefixes acc m, upiOk emails prefixes y := by
  unfold upiStep
  split
  · split
    · exact h
    · split
      · exact h
      · split
        · exact h
        · next hpre =>
          split
          · exact h
          · next hany =>
            split
            · split
              · exact h
              · intro y hy
                rcases List.mem_append.mp hy with hy | hy
                · exact h y hy
                · rw [List.mem_singleton.mp hy]
                  exact ⟨bool_ne_true hpre, bool_ne_true hany⟩
            · exact h
  · exact h

lemma extractUpiIds_ok (text : String) (emails prefixes : List String) :
    ∀ y ∈ extractUpiIds text emails prefixes, upiOk emails prefixes y := by
  unfold extractUpiIds
  exact foldl_preserve (upiStep emails prefixes) (upiStep_ok emails prefixes) _ []
    (by simp)

/-! ## Helper lemmas: the email-prefix set tracks the accepted emails -/

lemma emailStep_key (st : List String × List String) (e : String)
    (h : st.2 = st.1.map emailPrefixKey) :
    (emailStep st e).2 = (emailStep st e).1.map emailPrefixKey := by
  unfold emailStep
  split
  · simp [h]
  · exact h

lemma extractEmailState_key (text : String) :
    (extractEmailState text).2 = (extractEmailState text).1.map emailPrefixKey := by
  unfold extractEmailState
  exact foldl_preserve emailStep emailStep_key _ ([], []) rfl

/-! ## Helper lemmas: remaining de-duplication corollaries and unfolding -/

lemma foldl_nodup_plain (step : List String → String → List String)
    (hstep : ∀ acc m, step acc m = acc ∨ ∃ x, step acc m = acc ++ [x] ∧ x ∉ acc) :
    ∀ (ms : List String) (acc : List String), acc.Nodup → (ms.foldl step acc).Nodup := by
  intro ms
  induction ms with
  | nil => intro acc h; exact h
  | cons m ms ih =>
    intro acc h
    rcases hstep acc m with heq | ⟨x, heq, hfresh⟩
    · rw [List.foldl_cons, heq]; exact ih acc h
    · rw [List.foldl_cons, heq]
      refine ih (acc ++ [x]) ?_
      simp [List.nodup_append, h, hfresh]

lemma extractUpiIds_nodup (text : String) (emails prefixes : List String) :
    ((extractUpiIds text emails prefixes).map lowerS).Nodup := by
  unfold extractUpiIds
  exact foldl_nodup_key lowerS (upiStep emails prefixes) (upiStep_shape emails prefixes)
    _ [] (by simp)

lemma extractBankAccounts_nodup (text : String) : (extractBankAccounts text).Nodup := by
  unfold extractBankAccounts
  exact foldl_nodup_plain bankStep bankStep_shape _ [] List.nodup_nil

lemma extractPhishingLinks_nodup (text : String) : (extractPhishingLinks text).Nodup := by
  unfold extractPhishingLinks
  exact foldl_nodup_plain urlStep urlStep_shape _ [] List.nodup_nil

lemma extractRefIds_nodup (patterns : List RE) (text : String) :
    (extractRefIds patterns text).Nodup := by
  unfold extractRefIds
  exact foldl_nodup_plain refIdStep refIdStep_shape _ [] List.nodup_nil

lemma extractKeywords_nodup (tl : String) : (extractKeywords tl).Nodup := by
  unfold extractKeywords
  exact foldl_nodup_plain (keywordStep tl) (keywordStep_shape tl) _ [] List.nodup_nil

-- unfolding `extract` on nonempty input
lemma extract_eq (text : String) (h : ¬ text = "") :
    extract text =
      { bankAccounts := extractBankAccounts text
        emailAddresses := (extractEmailState text).1
        upiIds := extractUpiIds text (extractEmailState text).1 (extractEmailState text).2
        phishingLinks := extractPhishingLinks text
        phoneNumbers := extractPhoneNumbers text
        caseIds := extractRefIds caseIdPatterns text
        policyNumbers := extractRefIds policyNumberPatterns text
        orderNumbers := extractRefIds orderNumberPatterns text
        suspiciousKeywords := extractKeywords (lowerS text) } := by
  unfold extract
  rw [if_neg (by simpa using h)]

/-! ## The claims -/

/-- C1, counterexample: `merge_intelligence` does NOT leave its first input
unchanged — it reassigns every field of `current` and returns `current` itself,
so after merging an increment that adds a bank account into the default empty
aggregate, the first input's `bankAccounts` list has changed. -/
theorem c1_merge_mutates_first_input :
    mergeCurrentPost emptyIntel { bankAccounts := ["123456789"] } ≠ emptyIntel := by
  decide

/-- C1, amended: `merge_intelligence(current, new_intel)` never mutates its
second input, but it mutates its first input in place (the returned object is
`current` itself with every field replaced by the merged list); whenever the
increment holds an entry whose lowercase form is absent from the aggregate, the
first input observably changes. -/
theorem c1_merge_post_states (A B : ExtractedIntelligence)
    (h : ∃ x ∈ B.bankAccounts, lowerS x ∉ A.bankAccounts.map lowerS) :
    mergeNewIntelPost A B = B ∧ mergeCurrentPost A B ≠ A := by
  refine ⟨rfl, ?_⟩
  obtain ⟨x, hx, hn⟩ := h
  intro he
  have hfield : (mergeCurrentPost A B).bankAccounts = A.bankAccounts :=
    congrArg ExtractedIntelligence.bankAccounts he
  exact mergeUnique_ne A.bankAccounts B.bankAccounts x hx hn hfield

theorem c1_merge_post_states_witness :
    mergeNewIntelPost emptyIntel { bankAccounts := ["123456789"] } =
      { bankAccounts := ["123456789"] } ∧
    mergeCurrentPost emptyIntel { bankAccounts := ["123456789"] } ≠ emptyIntel :=
  c1_merge_post_states emptyIntel { bankAccounts := ["123456789"] }
    ⟨"123456789", by decide, by decide⟩

/-- C2, counterexample: `extract` de-duplicates `phishingLinks` only by exact
string equality, so a text holding the same URL in two capitalizations yields
two entries that are equal under case-insensitive comparison. -/
theorem c2_extract_case_sensitive_links :
    ¬ (((extract "http://Fake.com/x and http://fake.com/x").phishingLinks.map
      lowerS).Nodup) := by
  decide

/-- C2, amended: every field of a `merge_intelligence` result is free of
case-insensitive duplicates, and so is `extract`'s `upiIds`; but `extract`
de-duplicates `phishingLinks`, `caseIds`, `policyNumbers`, `orderNumbers`,
`bankAccounts` and `suspiciousKeywords` only by exact string comparison (they
are exactly duplicate-free, not case-insensitively so). -/
theorem c2_dedup_fields (A B : ExtractedIntelligence) (text : String) :
    (ciDeduped (mergeIntelligence A B).bankAccounts ∧
     ciDeduped (mergeIntelligence A B).upiIds ∧
     ciDeduped (mergeIntelligence A B).phishingLinks ∧
     ciDeduped (mergeIntelligence A B).phoneNumbers ∧
     ciDeduped (mergeIntelligence A B).emailAddresses ∧
     ciDeduped (mergeIntelligence A B).caseIds ∧
     ciDeduped (mergeIntelligence A B).policyNumbers ∧
     ciDeduped (mergeIntelligence A B).orderNumbers ∧
     ciDeduped (mergeIntelligence A B).suspiciousKeywords) ∧
    (ciDeduped (extract text).upiIds ∧
     (extract text).phishingLinks.Nodup ∧
     (extract text).caseIds.Nodup ∧
     (extract text).policyNumbers.Nodup ∧
     (extract text).orderNumbers.Nodup ∧
     (extract text).bankAccounts.Nodup ∧
     (extract text).suspiciousKeywords.Nodup) := by
  constructor
  · exact ⟨mergeUnique_nodup_lower _ _, mergeUnique_nodup_lower _ _,
      mergeUnique_nodup_lower _ _, mergeUnique_nodup_lower _ _,
      mergeUnique_nodup_lower _ _, mergeUnique_nodup_lower _ _,
      mergeUnique_nodup_lower _ _, mergeUnique_nodup_lower _ _,
      mergeUnique_nodup_lower _ _⟩
  · by_cases ht : text = ""
    · subst ht
      exact ⟨(by decide : (((extract "").upiIds).map lowerS).Nodup), by decide, by decide,
        by decide, by decide, by decide, by decide⟩
    · rw [extract_eq text ht]
      exact ⟨extractUpiIds_nodup text _ _, extractPhishingLinks_nodup text,
        extractRefIds_nodup caseIdPatterns text, extractRefIds_nodup policyNumberPatterns text,
        extractRefIds_nodup orderNumberPatterns text, extractBankAccounts_nodup text,
        extractKeywords_nodup (lowerS text)⟩

/-- C3: running the cumulative pipeline on the spec's three-turn scenario
(history oldest first, then the current message) yields an aggregate holding a
phone entry containing "+91-9876543210", the sixteen-digit bank account, the
UPI id, and the phishing link. -/
theorem c3_cumulative_scenario :
    (∃ p ∈ scenarioAgg.phoneNumbers, containsSub "+91-9876543210".data p.data = true) ∧
    "1234567890123456" ∈ scenarioAgg.bankAccounts ∧
    "scammer.fraud@fakebank" ∈ scenarioAgg.upiIds ∧
    "http://fake-site.com/claim?id=1" ∈ scenarioAgg.phishingLinks := by
  decide

/-- C4: any `token@token` candidate that equals (case-insensitively) the
handle-shaped prefix recorded for a detected email, or that is a
case-insensitive prefix of a strictly longer detected email, is excluded from
`upiIds`; and on the spec's example input the extractor returns exactly the one
email and no UPI id. -/
theorem c4_upi_email_disambiguation :
    (∀ text c, c ∈ findall upiPat text →
      ((∃ e ∈ (extract text).emailAddresses, lowerS c = emailPrefixKey e) ∨
       (∃ e ∈ (extract text).emailAddresses,
         isPrefixOfB (lowerL c.data) (lowerL e.data) = true ∧
           c.data.length < e.data.length)) →
      c ∉ (extract text).upiIds) ∧
    (extract disambigText).emailAddresses = ["offers@fake-amazon-deals.com"] ∧
    (extract disambigText).upiIds = [] := by
  refine ⟨?_, by decide, by decide⟩
  intro text c _ hex hmem
  by_cases ht : text = ""
  · subst ht
    have hempty : (extract "").upiIds = [] := by decide
    rw [hempty] at hmem
    exact absurd hmem (List.not_mem_nil c)
  · rw [extract_eq text ht] at hex hmem
    have hok := extractUpiIds_ok text (extractEmailState text).1 (extractEmailState text).2
      c hmem
    rcases hex with ⟨e, he, hkey⟩ | ⟨e, he, hpref, hlen⟩
    · have hin : lowerS c ∈ (extractEmailState text).2 := by
        rw [extractEmailState_key text]
        exact hkey ▸ List.mem_map_of_mem emailPrefixKey he
      have hcontra : (extractEmailState text).2.contains (lowerS c) = true :=
        List.elem_iff.mpr hin
      rw [hok.1] at hcontra
      exact Bool.false_ne_true hcontra
    · have hany : (extractEmailState text).1.any
          (fun e => isPrefixOfB (lowerL c.data) (lowerL e.data) &&
            c.data.length < e.data.length) = true := by
        rw [List.any_eq_true]
        exact ⟨e, he, by rw [Bool.and_eq_true]; exact ⟨hpref, by simpa using hlen⟩⟩
      rw [hok.2] at hany
      exact Bool.false_ne_true hany

theorem c4_upi_email_disambiguation_witness :
    "offers@fake" ∉ (extract disambigText).upiIds :=
  c4_upi_email_disambiguation.1 disambigText "offers@fake" (by decide)
    (Or.inl ⟨"offers@fake-amazon-deals.com", by decide, by decide⟩)

/-- C5: every stored phone entry is the canonical "+91-" prefix followed by the
ten-digit core taken from the match's digits (original spacing and hyphenation
discarded), entries are de-duplicated by that ten-digit core, and the spec's
"+91 8765432109" input yields an entry containing "+91-8765432109". -/
theorem c5_phone_canonicalization :
    (∀ text p, p ∈ (extract text).phoneNumbers →
      ∃ core, core.length = 10 ∧ (∀ c ∈ core, isDigitC c = true) ∧
        p = toStr (phonePre ++ core)) ∧
    (∀ text, ((extract text).phoneNumbers.map (fun p => p.data.drop 4)).Nodup) ∧
    (∃ p ∈ (extract "Call +91 8765432109 now").phoneNumbers,
      containsSub "+91-8765432109".data p.data = true) := by
  refine ⟨?_, ?_, by decide⟩
  · intro text p hp
    by_cases ht : text = ""
    · subst ht
      have hempty : (extract "").phoneNumbers = [] := by decide
      rw [hempty] at hp
      exact absurd hp (List.not_mem_nil p)
    · rw [extract_eq text ht] at hp
      exact (extractPhoneNumbers_inv text).1 p hp
  · intro text
    by_cases ht : text = ""
    · subst ht; decide
    · rw [extract_eq text ht]
      exact (extractPhoneNumbers_inv text).2

theorem c5_phone_canonicalization_witness :
    ∃ core, core.length = 10 ∧ (∀ c ∈ core, isDigitC c = true) ∧
      "+91-8765432109" = toStr (phonePre ++ core) :=
  c5_phone_canonicalization.1 "Call +91 8765432109 now" "+91-8765432109" (by decide)

/-- C6: a value kept in `bankAccounts` is never a ten-digit string that starts
with 6, 7, 8 or 9 (mobile-number shape) nor one that starts with "16", "17" or
"18" (epoch-timestamp shape); in particular a bare mobile number is never
misfiled as a bank account. -/
theorem c6_bank_phone_disambiguation :
    (∀ text x, x ∈ (extract text).bankAccounts → x.data.length = 10 →
      ("6789".data.contains (x.data.headD ' ') = false ∧
       isPrefixOfB "16".data x.data = false ∧
       isPrefixOfB "17".data x.data = false ∧
       isPrefixOfB "18".data x.data = false)) ∧
    (extract "Call 9876543210 immediately").bankAccounts = [] := by
  refine ⟨?_, by decide⟩
  intro text x hx
  by_cases ht : text = ""
  · subst ht
    have hempty : (extract "").bankAccounts = [] := by decide
    rw [hempty] at hx
    exact absurd hx (List.not_mem_nil x)
  · rw [extract_eq text ht] at hx
    exact extractBankAccounts_ok text x hx

theorem c6_bank_phone_disambiguation_witness :
    "6789".data.contains ("1234567890".data.headD ' ') = false ∧
    isPrefixOfB "16".data "1234567890".data = false ∧
    isPrefixOfB "17".data "1234567890".data = false ∧
    isPrefixOfB "18".data "1234567890".data = false :=
  c6_bank_phone_disambiguation.1 "account 1234567890" "1234567890" (by decide) (by decide)

/-- C7: merging an already case-insensitively de-duplicated aggregate with
itself returns it unchanged, and re-merging the same increment into an
aggregate a second time leaves every field of the aggregate unchanged. -/
theorem c7_merge_idempotent (X A B : ExtractedIntelligence)
    (h1 : ciDeduped X.bankAccounts) (h2 : ciDeduped X.upiIds)
    (h3 : ciDeduped X.phishingLinks) (h4 : ciDeduped X.phoneNumbers)
    (h5 : ciDeduped X.emailAddresses) (h6 : ciDeduped X.caseIds)
    (h7 : ciDeduped X.policyNumbers) (h8 : ciDeduped X.orderNumbers)
    (h9 : ciDeduped X.suspiciousKeywords) :
    mergeIntelligence X X = X ∧
    mergeIntelligence (mergeIntelligence A B) B = mergeIntelligence A B := by
  constructor
  · cases X with
    | mk f1 f2 f3 f4 f5 f6 f7 f8 f9 =>
      simp only [mergeIntelligence, ExtractedIntelligence.mk.injEq]
      exact ⟨mergeUnique_self f1 h1, mergeUnique_self f2 h2, mergeUnique_self f3 h3,
        mergeUnique_self f4 h4, mergeUnique_self f5 h5, mergeUnique_self f6 h6,
        mergeUnique_self f7 h7, mergeUnique_self f8 h8, mergeUnique_self f9 h9⟩
  · simp only [mergeIntelligence, ExtractedIntelligence.mk.injEq]
    exact ⟨mergeUnique_absorb_right _ _, mergeUnique_absorb_right _ _,
      mergeUnique_absorb_right _ _, mergeUnique_absorb_right _ _,
      mergeUnique_absorb_right _ _, mergeUnique_absorb_right _ _,
      mergeUnique_absorb_right _ _, mergeUnique_absorb_right _ _,
      mergeUnique_absorb_right _ _⟩

theorem c7_merge_idempotent_witness :
    mergeIntelligence { bankAccounts := ["123456789"], upiIds := ["user@ybl"] }
        { bankAccounts := ["123456789"], upiIds := ["user@ybl"] } =
      { bankAccounts := ["123456789"], upiIds := ["user@ybl"] } ∧
    mergeIntelligence
        (mergeIntelligence { bankAccounts := ["123456789"] } { upiIds := ["user@ybl"] })
        { upiIds := ["user@ybl"] } =
      mergeIntelligence { bankAccounts := ["123456789"] } { upiIds := ["user@ybl"] } :=
  c7_merge_idempotent { bankAccounts := ["123456789"], upiIds := ["user@ybl"] }
    { bankAccounts := ["123456789"] } { upiIds := ["user@ybl"] }
    (by decide) (by decide) (by decide) (by decide) (by decide) (by decide) (by decide)
    (by decide) (by decide)

/-- C8: extraction is total in the embedding, and empty input — the empty
string, or a null argument, both caught by the source's `if not text` early
return — yields the all-empty result without signalling any error. -/
theorem c8_extract_empty_total :
    extractOpt none = emptyIntel ∧ extractOpt (some "") = emptyIntel ∧
    extract "" = emptyIntel := by
  exact ⟨rfl, by decide, by decide⟩

/-- C9: every entry the extractor places in `phoneNumbers` is exactly "+91-"
followed by exactly ten digits — the country-code of the canonical form is the
constant 91, independent of how the number appeared in the input. -/
theorem c9_phone_always_plus91 (text : String) (p : String)
    (hp : p ∈ (extract text).phoneNumbers) :
    ∃ core, p = toStr (phonePre ++ core) ∧ core.length = 10 ∧
      ∀ c ∈ core, isDigitC c = true := by
  by_cases ht : text = ""
  · subst ht
    have hempty : (extract "").phoneNumbers = [] := by decide
    rw [hempty] at hp
    exact absurd hp (List.not_mem_nil p)
  · rw [extract_eq text ht] at hp
    obtain ⟨core, hlen, hdig, heq⟩ := (extractPhoneNumbers_inv text).1 p hp
    exact ⟨core, heq, hlen, hdig⟩

theorem c9_phone_always_plus91_witness :
    ∃ core, "+91-9876543210" = toStr (phonePre ++ core) ∧ core.length = 10 ∧
      ∀ c ∈ core, isDigitC c = true :=
  c9_phone_always_plus91 "Your SBI account is blocked, call +91-9876543210"
    "+91-9876543210" (by decide)

/-- C10: suspicious-keyword detection is substring containment over the
lowercased whole input, so vocabulary terms fire inside longer words: any text
whose lowercase form contains "confirm" gets both "confirm" and "fir" (a
substring of "confirm") in `suspiciousKeywords`. -/
theorem c10_keyword_substring_firing (text : String)
    (h : containsSub "confirm".data (lowerS text).data = true) :
    "confirm" ∈ (extract text).suspiciousKeywords ∧
    "fir" ∈ (extract text).suspiciousKeywords := by
  by_cases ht : text = ""
  · exfalso
    subst ht
    revert h
    decide
  · rw [extract_eq text ht]
    have hfir : containsSub "fir".data (lowerS text).data = true := by
      rw [containsSub_iff] at h ⊢
      exact List.IsInfix.trans ((containsSub_iff _ _).mp (by decide)) h
    constructor
    · exact keywordFold_mem (lowerS text) "confirm" suspiciousKeywordList []
        (Or.inr ⟨by decide, h⟩)
    · exact keywordFold_mem (lowerS text) "fir" suspiciousKeywordList []
        (Or.inr ⟨by decide, hfir⟩)

theorem c10_keyword_substring_firing_witness :
    "confirm" ∈ (extract "Please confirm your OTP now").suspiciousKeywords ∧
    "fir" ∈ (extract "Please confirm your OTP now").suspiciousKeywords :=
  c10_keyword_substring_firing "Please confirm your OTP now" (by decide)
